import Mathlib

/-!
Shallow embedding of the analysis core of the Major-Project repository.

Sources embedded:
- src/financial_analyzer.py: analyze_user_profile (risk thresholds),
  calculate_investment_allocation (base tables, age adjustment,
  renormalization), get_market_data (per-symbol failure isolation),
  generate_advice_report (investable amount and breakdown).
- src/auth_manager.py: hash_password / register_user / authenticate_user
  over an in-memory model of the two-column users table.

Python floats are modelled as exact rationals (the literal tables are exact
decimals); Python dicts as association lists in insertion order; the external
quote fetch and the fitted regression models as oracle function parameters;
a Python ZeroDivisionError as Option.none.
-/

namespace MajorProject

/-- The 5-feature user profile collected by the UI (age, income, expenses,
savings, risk_tolerance). -/
structure UserProfile where
  age : Int
  income : ℚ
  expenses : ℚ
  savings : ℚ
  risk_tolerance : ℚ
deriving Repr, DecidableEq

/-- Result record returned by analyze_user_profile (the feature echo field is
omitted: it is a copy of the inputs). -/
structure AnalysisResult where
  risk_score : ℚ
  risk_category : String
  expected_return : ℚ
deriving Repr, DecidableEq

/-- The risk-category conditional of analyze_user_profile
(financial_analyzer.py lines 78-83). -/
def riskCategoryOf (risk_score : ℚ) : String :=
  if risk_score < 33/100 then "low"
  else if risk_score < 66/100 then "medium"
  else "high"

/-- analyze_user_profile (financial_analyzer.py lines 60-90). The two
regression predictions are outputs of the fitted RandomForest models, taken
here as oracle inputs; the function derives the category from the risk
score and packages the record. -/
def analyze_user_profile (risk_score expected_return : ℚ) : AnalysisResult :=
  { risk_score := risk_score
    risk_category := riskCategoryOf risk_score
    expected_return := expected_return }

/-- A Python dict from category names to fractions, in insertion order. -/
abbrev Alloc := List (String × ℚ)

/-- Base allocation tables of calculate_investment_allocation
(financial_analyzer.py lines 102-130); any category other than "low" and
"medium" falls to the else branch (high risk). -/
def baseAllocation (risk_category : String) : Alloc :=
  if risk_category = "low" then
    [("fixed_deposits", 4/10), ("government_bonds", 3/10),
     ("money_market_funds", 2/10), ("mutual_funds", 1/10),
     ("stocks", 0), ("crypto", 0)]
  else if risk_category = "medium" then
    [("fixed_deposits", 2/10), ("government_bonds", 2/10),
     ("money_market_funds", 1/10), ("mutual_funds", 3/10),
     ("etfs", 15/100), ("stocks", 5/100), ("crypto", 0)]
  else
    [("fixed_deposits", 1/10), ("government_bonds", 1/10),
     ("money_market_funds", 5/100), ("mutual_funds", 25/100),
     ("etfs", 2/10), ("stocks", 25/100), ("crypto", 5/100)]

/-- Python dict item assignment to a key that is present: the value at the
key is replaced in place. Every key touched by the age adjustment
(stocks, crypto, fixed_deposits, government_bonds) is present in each of
the three base tables. -/
def updateEntry (k : String) (f : ℚ → ℚ) : Alloc → Alloc :=
  List.map (fun kv => if kv.1 = k then (kv.1, f kv.2) else kv)

/-- Age adjustment of calculate_investment_allocation
(financial_analyzer.py lines 132-141). -/
def ageAdjust (age : Int) (alloc : Alloc) : Alloc :=
  if age < 35 then
    updateEntry "crypto" (fun v => min (v + 5/100) (15/100))
      (updateEntry "stocks" (fun v => min (v + 1/10) (4/10)) alloc)
  else if age > 60 then
    updateEntry "stocks" (fun v => max (v - 1/10) 0)
      (updateEntry "government_bonds" (fun v => min (v + 1/10) (4/10))
        (updateEntry "fixed_deposits" (fun v => min (v + 2/10) (6/10)) alloc))
  else alloc

/-- sum(allocation.values()). -/
def sumValues (alloc : Alloc) : ℚ := (alloc.map Prod.snd).sum

/-- Final renormalization (financial_analyzer.py lines 143-145):
each value is divided by the pre-normalization total. A zero total would
raise ZeroDivisionError in Python; that outcome is modelled as none. -/
def normalizeAlloc (alloc : Alloc) : Option Alloc :=
  let total := sumValues alloc
  if total = 0 then none
  else some (alloc.map (fun kv => (kv.1, kv.2 / total)))

/-- calculate_investment_allocation (financial_analyzer.py lines 92-147):
base table by risk category, age adjustment, renormalization. income and
savings are read from user_data but unused by the computation. -/
def calculate_investment_allocation (user_data : UserProfile)
    (analysis_result : AnalysisResult) : Option Alloc :=
  normalizeAlloc (ageAdjust user_data.age (baseAllocation analysis_result.risk_category))

/-- One row of the fetched price history (the Close and Volume columns of
yfinance history). A NaN volume cell is modelled as none. -/
structure HistRow where
  close : ℚ
  volume : Option ℚ
deriving Repr, DecidableEq

/-- The per-symbol quote record built by get_market_data. -/
structure Quote where
  current_price : ℚ
  change_percent : ℚ
  volume : Int
  high_52w : ℚ
  low_52w : ℚ
deriving Repr, DecidableEq

/-- Round to the nearest integer, ties to even — the rounding of Python's
built-in round. -/
def roundHalfEven (q : ℚ) : ℤ :=
  if q - (⌊q⌋ : ℚ) = 1/2 then (if ⌊q⌋ % 2 = 0 then ⌊q⌋ else ⌊q⌋ + 1)
  else round q

/-- round(x, 2) of Python on an exact rational. -/
def pyRound2 (q : ℚ) : ℚ := (roundHalfEven (q * 100) : ℚ) / 100

/-- int(x) of Python: truncation toward zero. -/
def pyInt (q : ℚ) : ℤ := if q < 0 then ⌈q⌉ else ⌊q⌋

/-- The all-zero placeholder record substituted on a fetch failure
(financial_analyzer.py lines 173-179). -/
def zeroQuote : Quote :=
  { current_price := 0, change_percent := 0, volume := 0,
    high_52w := 0, low_52w := 0 }

/-- The quote record built from a non-empty history
(financial_analyzer.py lines 161-170): last close, percent change of the
last close versus the prior one (0 when fewer than 2 rows), last volume
(0 when NaN), max and min close of the window. -/
def mkQuote (hist : List HistRow) : Quote :=
  let closes := hist.map HistRow.close
  let current_price := closes.getLast?.getD 0
  let change : ℚ :=
    if hist.length > 1 then
      let prev := closes.dropLast.getLast?.getD 0
      (current_price - prev) / prev * 100
    else 0
  { current_price := pyRound2 current_price
    change_percent := pyRound2 change
    volume := match (hist.map HistRow.volume).getLast?.getD none with
      | some v => pyInt v
      | none => 0
    high_52w := pyRound2 ((closes.max?).getD 0)
    low_52w := pyRound2 ((closes.min?).getD 0) }

/-- Python dict assignment market_data[symbol] = ...: replace in place when
the key is present, append otherwise. -/
def dictInsert {α : Type} : List (String × α) → String → α → List (String × α)
  | [], k, v => [(k, v)]
  | kv :: rest, k, v =>
    if kv.1 = k then (k, v) :: rest else kv :: dictInsert rest k v

/-- The loop body of get_market_data (financial_analyzer.py lines 155-179):
a symbol whose fetch raises gets the all-zero record; a successful fetch adds
a record only when the history is non-empty (the code tests both hist.empty
and len(hist) > 0); an empty successful history adds nothing. -/
def marketStep (fetch : String → Except String (List HistRow))
    (market_data : List (String × Quote)) (symbol : String) :
    List (String × Quote) :=
  match fetch symbol with
  | .ok hist =>
    if hist.isEmpty = false ∧ hist.length > 0 then
      dictInsert market_data symbol (mkQuote hist)
    else market_data
  | .error _ => dictInsert market_data symbol zeroQuote

/-- get_market_data (financial_analyzer.py lines 149-181). The network fetch
ticker.history is an oracle parameter: Except.error models a raised
exception, Except.ok the fetched rows. -/
def get_market_data (fetch : String → Except String (List HistRow))
    (symbols : List String) : List (String × Quote) :=
  symbols.foldl (marketStep fetch) []

/-- One entry of the investment_breakdown dict. -/
structure BreakdownEntry where
  percentage : ℚ
  amount : ℚ
  description : String
deriving Repr, DecidableEq

/-- The fixed description table of _get_category_description
(financial_analyzer.py lines 223-234). -/
def categoryDescriptions : List (String × String) :=
  [("fixed_deposits", "Low-risk, guaranteed returns from banks"),
   ("government_bonds", "Very safe, backed by government"),
   ("money_market_funds", "Short-term, low-risk investments"),
   ("mutual_funds", "Diversified portfolio managed by professionals"),
   ("etfs", "Exchange-traded funds tracking market indices"),
   ("stocks", "Individual company shares with higher volatility"),
   ("crypto", "Cryptocurrency investments with high volatility")]

/-- descriptions.get(category, "Investment category"). -/
def getCategoryDescription (category : String) : String :=
  (categoryDescriptions.lookup category).getD "Investment category"

/-- investable_amount = savings * 0.8 (financial_analyzer.py line 191). -/
def investableAmount (savings : ℚ) : ℚ := savings * (8/10)

/-- The loop of generate_advice_report (financial_analyzer.py lines 212-219):
one breakdown entry per category with positive percentage, in iteration
order; zero-percentage categories are skipped. -/
def buildBreakdown (investable_amount : ℚ) : Alloc → List (String × BreakdownEntry)
  | [] => []
  | (category, percentage) :: rest =>
    if percentage > 0 then
      (category,
        { percentage := percentage * 100
          amount := investable_amount * percentage
          description := getCategoryDescription category }) ::
        buildBreakdown investable_amount rest
    else buildBreakdown investable_amount rest

/-- Format a rational as Python's "{:.1%}" does on an exact value: percent
with one decimal place, ties to even. -/
def formatPercent1 (q : ℚ) : String :=
  let m := roundHalfEven (q * 1000)
  let sign := if m < 0 then "-" else ""
  sign ++ toString (m.natAbs / 10) ++ "." ++ toString (m.natAbs % 10) ++ "%"

/-- The advice record of generate_advice_report. -/
structure AdviceReport where
  summary : String
  recommendations : List String
  investment_breakdown : List (String × BreakdownEntry)
  market_insights : List (String × Quote)
deriving Repr, DecidableEq

/-- generate_advice_report (financial_analyzer.py lines 183-221). -/
def generate_advice_report (user_data : UserProfile)
    (analysis_result : AnalysisResult) (allocation : Alloc)
    (market_data : List (String × Quote)) : AdviceReport :=
  let risk_category := analysis_result.risk_category
  let investable_amount := investableAmount user_data.savings
  { summary := "Based on your profile, you have a " ++ risk_category ++
      " risk tolerance with an expected annual return of " ++
      formatPercent1 analysis_result.expected_return ++ "."
    recommendations :=
      if risk_category = "low" then
        ["Focus on capital preservation with fixed deposits and government bonds.",
         "Consider a small allocation to mutual funds for growth."]
      else if risk_category = "medium" then
        ["Balance between growth and stability with mutual funds and ETFs.",
         "Include some individual stocks for potential higher returns."]
      else
        ["Embrace growth opportunities with higher stock allocation.",
         "Consider crypto for diversification, but limit exposure."]
    investment_breakdown := buildBreakdown investable_amount allocation
    market_insights := market_data }

/-- One row of the users table (auth_manager.py): created_at and last_login
are wall-clock timestamps, not modelled. -/
structure Account where
  id : Nat
  username : String
  password_hash : String
  email : Option String
deriving Repr, DecidableEq

/-- The users table plus the AUTOINCREMENT counter for the next id. -/
structure AuthState where
  users : List Account
  nextId : Nat
deriving Repr, DecidableEq

/-- The (success, result) pair returned by authenticate_user: either the
(id, username, email) row of the matched user, or a failure message. -/
inductive AuthResult where
  | ok (user : Nat × String × Option String)
  | fail (msg : String)
deriving Repr, DecidableEq

/-- register_user (auth_manager.py lines 51-74), parametric in the password
hash function (hash_password applies SHA-256; both register_user and
authenticate_user call the same function). Returns the new state and the
(success, message) pair; the duplicate check runs before the insert. -/
def register_user (hash_password : String → String) (st : AuthState)
    (username password : String) (email : Option String) :
    AuthState × Bool × String :=
  match st.users.find? (fun a => a.username == username) with
  | some _ => (st, false, "Username already exists")
  | none =>
    ({ users := st.users ++
        [{ id := st.nextId, username := username,
           password_hash := hash_password password, email := email }],
       nextId := st.nextId + 1 },
     true, "User registered successfully")

/-- authenticate_user (auth_manager.py lines 76-103), parametric in the same
hash function: one lookup matching both username and password hash; the
last_login timestamp update on success is not modelled (wall clock). -/
def authenticate_user (hash_password : String → String) (st : AuthState)
    (username password : String) : AuthResult :=
  let password_hash := hash_password password
  match st.users.find?
      (fun a => a.username == username && a.password_hash == password_hash) with
  | some user => .ok (user.id, user.username, user.email)
  | none => .fail "Invalid username or password"

/-- Python dict access m[k] on an association list: the value of the first
(and, for dict-built lists, only) matching key. -/
def lookupKey {α : Type} (k : String) : List (String × α) → Option α
  | [] => none
  | kv :: rest => if kv.1 = k then some kv.2 else lookupKey k rest

theorem sumValues_map_div (l : Alloc) (t : ℚ) :
    sumValues (l.map (fun kv => (kv.1, kv.2 / t))) = sumValues l / t := by
  induction l with
  | nil => simp [sumValues]
  | cons kv rest ih =>
    simp only [sumValues, List.map_cons, List.sum_cons] at ih ⊢
    rw [ih, add_div]

theorem normalizeAlloc_sum {l l' : Alloc} (h : normalizeAlloc l = some l') :
    sumValues l' = 1 := by
  unfold normalizeAlloc at h
  by_cases h0 : sumValues l = 0
  · simp [h0] at h
  · simp only [h0, if_false] at h
    obtain rfl := (Option.some_inj).mp h
    rw [sumValues_map_div, div_self h0]

theorem sumValues_ageAdjust_base_pos (risk_category : String) (age : Int) :
    0 < sumValues (ageAdjust age (baseAllocation risk_category)) := by
  by_cases hl : risk_category = "low" <;> by_cases hm : risk_category = "medium" <;>
    by_cases h35 : age < 35 <;> by_cases h60 : age > 60 <;>
      simp only [baseAllocation, ageAdjust, hl, hm, h35, h60, if_true, if_false,
        updateEntry, List.map, String.reduceEq, reduceIte] <;>
      norm_num [sumValues, min_def, max_def]

theorem updateEntry_cons (k : String) (f : ℚ → ℚ) (kv : String × ℚ) (rest : Alloc) :
    updateEntry k f (kv :: rest) =
      (if kv.1 = k then (kv.1, f kv.2) else kv) :: updateEntry k f rest := rfl

theorem lookupKey_updateEntry_self (k : String) (f : ℚ → ℚ) (l : Alloc) :
    lookupKey k (updateEntry k f l) = (lookupKey k l).map f := by
  induction l with
  | nil => rfl
  | cons kv rest ih =>
    rw [updateEntry_cons]
    by_cases h : kv.1 = k
    · simp [lookupKey, h]
    · simp [lookupKey, h, ih]

theorem lookupKey_updateEntry_ne (k k' : String) (f : ℚ → ℚ) (l : Alloc)
    (h : k' ≠ k) : lookupKey k' (updateEntry k f l) = lookupKey k' l := by
  induction l with
  | nil => rfl
  | cons kv rest ih =>
    rw [updateEntry_cons]
    have h2 : ¬ k = k' := fun hh => h hh.symm
    by_cases hk : kv.1 = k
    · simp [lookupKey, hk, h2, ih]
    · by_cases hk' : kv.1 = k' <;> simp [lookupKey, hk, hk', h, ih]

/-- C1: for every UserProfile and AnalysisResult, calculate_investment_allocation
returns an allocation plan whose category fractions sum to 1 (exactly, in the
rational model; the renormalization divides each fraction by the
pre-normalization total). -/
theorem C1_allocation_fractions_sum_to_one (user_data : UserProfile)
    (analysis_result : AnalysisResult) :
    ∃ plan, calculate_investment_allocation user_data analysis_result = some plan ∧
      sumValues plan = 1 := by
  have hpos := sumValues_ageAdjust_base_pos analysis_result.risk_category user_data.age
  have hne := ne_of_gt hpos
  cases hcalc : calculate_investment_allocation user_data analysis_result with
  | none =>
    exfalso
    unfold calculate_investment_allocation normalizeAlloc at hcalc
    rw [if_neg hne] at hcalc
    exact Option.noConfusion hcalc
  | some plan => exact ⟨plan, rfl, normalizeAlloc_sum hcalc⟩

/-- C2: analyze_user_profile assigns risk_category low when the risk score is
below 0.33, medium when it is in [0.33, 0.66), and high when it is at least
0.66. -/
theorem C2_risk_category_thresholds (r expected : ℚ) :
    (r < 33/100 → (analyze_user_profile r expected).risk_category = "low") ∧
    (33/100 ≤ r → r < 66/100 →
      (analyze_user_profile r expected).risk_category = "medium") ∧
    (66/100 ≤ r → (analyze_user_profile r expected).risk_category = "high") := by
  refine ⟨fun h => ?_, fun h1 h2 => ?_, fun h => ?_⟩
  · simp [analyze_user_profile, riskCategoryOf, h]
  · simp [analyze_user_profile, riskCategoryOf, not_lt.mpr h1, h2]
  · have h1 : ¬ r < 33/100 := not_lt.mpr (le_trans (by norm_num) h)
    have h2 : ¬ r < 66/100 := not_lt.mpr h
    simp [analyze_user_profile, riskCategoryOf, h1, h2]

theorem C2_witness :
    (analyze_user_profile (1/10) 0).risk_category = "low" ∧
    (analyze_user_profile (1/2) 0).risk_category = "medium" ∧
    (analyze_user_profile (9/10) 0).risk_category = "high" :=
  ⟨(C2_risk_category_thresholds (1/10) 0).1 (by norm_num),
   (C2_risk_category_thresholds (1/2) 0).2.1 (by norm_num) (by norm_num),
   (C2_risk_category_thresholds (9/10) 0).2.2 (by norm_num)⟩

/-- C3: the age adjustment, on any allocation table (in particular each risk
category's base table): below 35 stocks gains 0.10 capped at 0.40 and crypto
gains 0.05 capped at 0.15; above 60 fixed_deposits gains 0.20 capped at 0.60,
government_bonds gains 0.10 capped at 0.40, and stocks loses 0.10 floored at
0; for ages 35 to 60 inclusive nothing changes before renormalization; in
every case no other entry changes. -/
theorem C3_age_adjustment_rules (alloc : Alloc) (age : Int) :
    (age < 35 →
      lookupKey "stocks" (ageAdjust age alloc) =
        (lookupKey "stocks" alloc).map (fun v => min (v + 1/10) (4/10)) ∧
      lookupKey "crypto" (ageAdjust age alloc) =
        (lookupKey "crypto" alloc).map (fun v => min (v + 5/100) (15/100)) ∧
      (∀ k, k ≠ "stocks" → k ≠ "crypto" →
        lookupKey k (ageAdjust age alloc) = lookupKey k alloc)) ∧
    (age > 60 →
      lookupKey "fixed_deposits" (ageAdjust age alloc) =
        (lookupKey "fixed_deposits" alloc).map (fun v => min (v + 2/10) (6/10)) ∧
      lookupKey "government_bonds" (ageAdjust age alloc) =
        (lookupKey "government_bonds" alloc).map (fun v => min (v + 1/10) (4/10)) ∧
      lookupKey "stocks" (ageAdjust age alloc) =
        (lookupKey "stocks" alloc).map (fun v => max (v - 1/10) 0) ∧
      (∀ k, k ≠ "fixed_deposits" → k ≠ "government_bonds" → k ≠ "stocks" →
        lookupKey k (ageAdjust age alloc) = lookupKey k alloc)) ∧
    (35 ≤ age → age ≤ 60 → ageAdjust age alloc = alloc) := by
  refine ⟨fun h35 => ?_, fun h60 => ?_, fun ha hb => ?_⟩
  · rw [ageAdjust, if_pos h35]
    refine ⟨?_, ?_, fun k hks hkc => ?_⟩
    · rw [lookupKey_updateEntry_ne _ _ _ _ (by decide), lookupKey_updateEntry_self]
    · rw [lookupKey_updateEntry_self, lookupKey_updateEntry_ne _ _ _ _ (by decide)]
    · rw [lookupKey_updateEntry_ne _ _ _ _ hkc, lookupKey_updateEntry_ne _ _ _ _ hks]
  · have h35 : ¬ age < 35 := by omega
    rw [ageAdjust, if_neg h35, if_pos h60]
    refine ⟨?_, ?_, ?_, fun k hkf hkg hks => ?_⟩
    · rw [lookupKey_updateEntry_ne _ _ _ _ (by decide),
        lookupKey_updateEntry_ne _ _ _ _ (by decide), lookupKey_updateEntry_self]
    · rw [lookupKey_updateEntry_ne _ _ _ _ (by decide), lookupKey_updateEntry_self,
        lookupKey_updateEntry_ne _ _ _ _ (by decide)]
    · rw [lookupKey_updateEntry_self, lookupKey_updateEntry_ne _ _ _ _ (by decide),
        lookupKey_updateEntry_ne _ _ _ _ (by decide)]
    · rw [lookupKey_updateEntry_ne _ _ _ _ hks, lookupKey_updateEntry_ne _ _ _ _ hkg,
        lookupKey_updateEntry_ne _ _ _ _ hkf]
  · have h35 : ¬ age < 35 := by omega
    have h60 : ¬ age > 60 := by omega
    rw [ageAdjust, if_neg h35, if_neg h60]

theorem C3_witness :
    lookupKey "stocks" (ageAdjust 30 (baseAllocation "low")) = some (1/10) ∧
    lookupKey "fixed_deposits" (ageAdjust 61 (baseAllocation "high")) = some (3/10) ∧
    ageAdjust 40 (baseAllocation "medium") = baseAllocation "medium" := by
  refine ⟨?_, ?_, ?_⟩
  · rw [((C3_age_adjustment_rules (baseAllocation "low") 30).1 (by norm_num)).1]
    simp only [baseAllocation, String.reduceEq, reduceIte, lookupKey]
    norm_num [min_def]
  · rw [((C3_age_adjustment_rules (baseAllocation "high") 61).2.1 (by norm_num)).1]
    simp only [baseAllocation, String.reduceEq, reduceIte, lookupKey]
    norm_num [min_def]
  · exact (C3_age_adjustment_rules (baseAllocation "medium") 40).2.2
      (by norm_num) (by norm_num)

/-- C4: on the literal example (risk_category low, age 30, savings 10000) the
base table is the low table, the age adjustment raises stocks 0 to 0.1 and
crypto 0 to 0.05, the pre-normalization total is 1.15, the normalized
fixed_deposits fraction is 8/23 which is within 0.001 of 0.348, and the
investable amount is 8000 = 80 percent of savings. -/
theorem C4_low_risk_age30_example :
    baseAllocation "low" =
      [("fixed_deposits", 4/10), ("government_bonds", 3/10),
       ("money_market_funds", 2/10), ("mutual_funds", 1/10),
       ("stocks", 0), ("crypto", 0)] ∧
    lookupKey "stocks" (baseAllocation "low") = some 0 ∧
    lookupKey "crypto" (baseAllocation "low") = some 0 ∧
    lookupKey "stocks" (ageAdjust 30 (baseAllocation "low")) = some (1/10) ∧
    lookupKey "crypto" (ageAdjust 30 (baseAllocation "low")) = some (5/100) ∧
    sumValues (ageAdjust 30 (baseAllocation "low")) = 115/100 ∧
    calculate_investment_allocation ⟨30, 50000, 20000, 10000, 1/2⟩
        ⟨1/10, "low", 5/100⟩ =
      some [("fixed_deposits", 8/23), ("government_bonds", 6/23),
            ("money_market_funds", 4/23), ("mutual_funds", 2/23),
            ("stocks", 2/23), ("crypto", 1/23)] ∧
    |(8 : ℚ)/23 - 348/1000| < 1/1000 ∧
    investableAmount 10000 = 8000 := by
  refine ⟨?_, ?_, ?_, ?_, ?_, ?_, ?_, by rw [abs_sub_lt_iff]; norm_num, ?_⟩ <;>
    simp only [calculate_investment_allocation, normalizeAlloc, sumValues,
      ageAdjust, baseAllocation, updateEntry, investableAmount, lookupKey,
      List.map, String.reduceEq, reduceIte] <;>
    norm_num [min_def, max_def]

/-- C5 counterexample: the renormalization step has no zero-total guard; on an
allocation whose entries are all zero it divides by zero (modelled as none,
the Python ZeroDivisionError outcome). -/
theorem C5_counterexample_all_zero_divides_by_zero :
    normalizeAlloc [("stocks", 0), ("crypto", 0)] = none := by
  norm_num [normalizeAlloc, sumValues]

/-- C5 (amended): calculate_investment_allocation contains no defensive guard,
but for every input the pre-normalization total of the adjusted table is
positive, so the division in the renormalization step never divides by zero
and the function always returns a plan. -/
theorem C5_total_always_positive (user_data : UserProfile)
    (analysis_result : AnalysisResult) :
    0 < sumValues (ageAdjust user_data.age
        (baseAllocation analysis_result.risk_category)) ∧
    (calculate_investment_allocation user_data analysis_result).isSome := by
  have hpos := sumValues_ageAdjust_base_pos analysis_result.risk_category user_data.age
  refine ⟨hpos, ?_⟩
  unfold calculate_investment_allocation normalizeAlloc
  rw [if_neg (ne_of_gt hpos)]
  rfl

theorem lookupKey_dictInsert_self {α : Type} (m : List (String × α))
    (k : String) (v : α) : lookupKey k (dictInsert m k v) = some v := by
  induction m with
  | nil => simp [dictInsert, lookupKey]
  | cons kv rest ih =>
    by_cases h : kv.1 = k
    · simp [dictInsert, h, lookupKey]
    · simp [dictInsert, h, lookupKey, ih]

theorem lookupKey_dictInsert_ne {α : Type} (m : List (String × α))
    (k k' : String) (v : α) (h : k' ≠ k) :
    lookupKey k' (dictInsert m k v) = lookupKey k' m := by
  have h2 : ¬ k = k' := fun hh => h hh.symm
  induction m with
  | nil => simp [dictInsert, lookupKey, h2]
  | cons kv rest ih =>
    by_cases hk : kv.1 = k
    · have hne : ¬ kv.1 = k' := by rw [hk]; exact h2
      simp [dictInsert, hk, lookupKey, hne, h2]
    · by_cases hk' : kv.1 = k' <;> simp [dictInsert, hk, lookupKey, hk', h, ih]

theorem marketStep_foldl_error (fetch : String → Except String (List HistRow))
    (s e : String) (hs : fetch s = .error e) :
    ∀ (symbols : List String) (acc : List (String × Quote)),
      (s ∈ symbols ∨ lookupKey s acc = some zeroQuote) →
      lookupKey s (symbols.foldl (marketStep fetch) acc) = some zeroQuote := by
  intro symbols
  induction symbols with
  | nil =>
    intro acc h
    rcases h with h | h
    · exact absurd h (List.not_mem_nil s)
    · simpa using h
  | cons t rest ih =>
    intro acc h
    rw [List.foldl_cons]
    apply ih
    by_cases hts : t = s
    · subst hts
      right
      simp [marketStep, hs, lookupKey_dictInsert_self]
    · rcases h with h | h
      · rcases List.mem_cons.mp h with h | h
        · exact absurd h.symm hts
        · exact Or.inl h
      · right
        cases hft : fetch t with
        | ok hist =>
          simp only [marketStep, hft]
          by_cases hcond : hist.isEmpty = false ∧ hist.length > 0
          · rw [if_pos hcond,
              lookupKey_dictInsert_ne _ _ _ _ (fun hh => hts hh.symm)]
            exact h
          · rw [if_neg hcond]; exact h
        | error e2 =>
          simp only [marketStep, hft]
          rw [lookupKey_dictInsert_ne _ _ _ _ (fun hh => hts hh.symm)]
          exact h

theorem marketStep_foldl_empty (fetch : String → Except String (List HistRow))
    (s : String) (hs : fetch s = .ok []) :
    ∀ (symbols : List String) (acc : List (String × Quote)),
      lookupKey s acc = none →
      lookupKey s (symbols.foldl (marketStep fetch) acc) = none := by
  intro symbols
  induction symbols with
  | nil => intro acc h; simpa using h
  | cons t rest ih =>
    intro acc h
    rw [List.foldl_cons]
    apply ih
    by_cases hts : t = s
    · subst hts
      simpa [marketStep, hs] using h
    · cases hft : fetch t with
      | ok hist =>
        simp only [marketStep, hft]
        by_cases hcond : hist.isEmpty = false ∧ hist.length > 0
        · rw [if_pos hcond,
            lookupKey_dictInsert_ne _ _ _ _ (fun hh => hts hh.symm)]
          exact h
        · rw [if_neg hcond]; exact h
      | error e2 =>
        simp only [marketStep, hft]
        rw [lookupKey_dictInsert_ne _ _ _ _ (fun hh => hts hh.symm)]
        exact h

/-- C6: in get_market_data every symbol whose fetch raises is mapped to the
all-zero quote record, and a batch of one failing and one succeeding symbol
(with non-empty history) yields entries for both; no exception escapes (the
embedded function is total). -/
theorem C6_fetch_failure_isolation
    (fetch : String → Except String (List HistRow)) :
    (∀ (symbols : List String) (s e : String), s ∈ symbols →
      fetch s = .error e →
      lookupKey s (get_market_data fetch symbols) = some zeroQuote) ∧
    (∀ (s1 s2 e : String) (hist : List HistRow), fetch s1 = .error e →
      fetch s2 = .ok hist → hist ≠ [] →
      lookupKey s1 (get_market_data fetch [s1, s2]) = some zeroQuote ∧
      lookupKey s2 (get_market_data fetch [s1, s2]) = some (mkQuote hist)) := by
  constructor
  · intro symbols s e hmem herr
    exact marketStep_foldl_error fetch s e herr symbols [] (Or.inl hmem)
  · intro s1 s2 e hist herr hok hne
    have h12 : s1 ≠ s2 := by
      intro hh; rw [hh, hok] at herr; exact Except.noConfusion herr
    have hcond : hist.isEmpty = false ∧ hist.length > 0 := by
      cases hist with
      | nil => exact absurd rfl hne
      | cons a l => exact ⟨rfl, Nat.succ_pos _⟩
    unfold get_market_data
    rw [List.foldl_cons, List.foldl_cons, List.foldl_nil]
    simp only [marketStep, herr, hok, if_pos hcond]
    constructor
    · rw [lookupKey_dictInsert_ne _ _ _ _ h12, lookupKey_dictInsert_self]
    · rw [lookupKey_dictInsert_self]

theorem C6_witness :
    lookupKey "BAD" (get_market_data
      (fun s => if s = "GOOD" then .ok [⟨100, some 5⟩] else .error "boom")
      ["BAD", "GOOD"]) = some zeroQuote ∧
    lookupKey "GOOD" (get_market_data
      (fun s => if s = "GOOD" then .ok [⟨100, some 5⟩] else .error "boom")
      ["BAD", "GOOD"]) = some (mkQuote [⟨100, some 5⟩]) :=
  (C6_fetch_failure_isolation _).2 "BAD" "GOOD" "boom" [⟨100, some 5⟩]
    rfl rfl (by simp)

/-- C9: a symbol whose fetch succeeds with an empty price history is omitted
from the result of get_market_data entirely — no all-zero record is
substituted — so the result can have fewer entries than the symbol list. -/
theorem C9_empty_history_symbol_omitted
    (fetch : String → Except String (List HistRow)) (symbols : List String)
    (s : String) (hs : fetch s = .ok []) :
    lookupKey s (get_market_data fetch symbols) = none :=
  marketStep_foldl_empty fetch s hs symbols [] rfl

theorem C9_witness :
    lookupKey "EMPTY" (get_market_data
      (fun s => if s = "EMPTY" then .ok [] else .error "x")
      ["EMPTY", "OTHER"]) = none :=
  C9_empty_history_symbol_omitted _ ["EMPTY", "OTHER"] "EMPTY" rfl

theorem register_user_mem_username (hash_password : String → String)
    (st : AuthState) (username password : String) (email : Option String) :
    ∃ a ∈ (register_user hash_password st username password email).1.users,
      a.username = username := by
  unfold register_user
  cases hf : st.users.find? (fun a => a.username == username) with
  | some a =>
    simp only [hf]
    refine ⟨a, List.mem_of_find?_eq_some hf, ?_⟩
    simpa [beq_iff_eq] using List.find?_some hf
  | none =>
    simp only [hf]
    exact ⟨⟨st.nextId, username, hash_password password, email⟩,
      List.mem_append_right _ (List.mem_singleton.mpr rfl), rfl⟩

/-- C7: for every store state, a second registration under the same username
fails with the duplicate-username message (no exception), and authentication
with a wrong password for an existing user returns exactly the same generic
failure as authentication with an unknown username. -/
theorem C7_duplicate_and_generic_failure (hash_password : String → String)
    (st : AuthState) :
    (∀ (username p1 p2 : String) (e1 e2 : Option String),
      (register_user hash_password
        (register_user hash_password st username p1 e1).1 username p2 e2).2 =
      (false, "Username already exists")) ∧
    (∀ (username password username2 password2 : String),
      (∃ a ∈ st.users, a.username = username) →
      (∀ a ∈ st.users, a.username = username →
        a.password_hash ≠ hash_password password) →
      (∀ a ∈ st.users, a.username ≠ username2) →
      authenticate_user hash_password st username password =
        .fail "Invalid username or password" ∧
      authenticate_user hash_password st username password =
        authenticate_user hash_password st username2 password2) := by
  constructor
  · intro u p1 p2 e1 e2
    obtain ⟨a, ha, hau⟩ := register_user_mem_username hash_password st u p1 e1
    set st1 := (register_user hash_password st u p1 e1).1 with hst1
    unfold register_user
    cases hf : st1.users.find? (fun a => a.username == u) with
    | some b => simp only [hf]
    | none =>
      exfalso
      have hcontra := List.find?_eq_none.mp hf a ha
      simp [hau] at hcontra
  · intro u p u2 p2 hex hwrong hunknown
    have hn1 : st.users.find?
        (fun a => a.username == u && a.password_hash == hash_password p) = none := by
      apply List.find?_eq_none.mpr
      intro a ha
      by_cases hau : a.username = u
      · simp [beq_iff_eq, hau, hwrong a ha hau]
      · simp [beq_iff_eq, hau]
    have hn2 : st.users.find?
        (fun a => a.username == u2 && a.password_hash == hash_password p2) = none := by
      apply List.find?_eq_none.mpr
      intro a ha
      simp [beq_iff_eq, hunknown a ha]
    unfold authenticate_user
    simp only [hn1, hn2]
    exact ⟨by trivial, by trivial⟩

theorem C7_witness :
    (register_user (fun s => s)
      (register_user (fun s => s) ⟨[⟨0, "alice", "secret", none⟩], 1⟩
        "bob" "pw1" none).1 "bob" "pw2" none).2 =
      (false, "Username already exists") ∧
    authenticate_user (fun s => s) ⟨[⟨0, "alice", "secret", none⟩], 1⟩
        "alice" "wrong" = .fail "Invalid username or password" ∧
    authenticate_user (fun s => s) ⟨[⟨0, "alice", "secret", none⟩], 1⟩
        "alice" "wrong" =
      authenticate_user (fun s => s) ⟨[⟨0, "alice", "secret", none⟩], 1⟩
        "bob" "anything" := by
  have h := C7_duplicate_and_generic_failure (fun s => s)
    ⟨[⟨0, "alice", "secret", none⟩], 1⟩
  have h2 := h.2 "alice" "wrong" "bob" "anything"
    ⟨⟨0, "alice", "secret", none⟩, by simp, rfl⟩
    (by intro a ha hu; simp at ha; simp [ha])
    (by intro a ha; simp at ha; simp [ha])
  exact ⟨h.1 "bob" "pw1" "pw2" none none, h2.1, h2.2⟩

/-- C10: registration followed by authentication round-trips: on a store not
containing the username, register_user succeeds and a subsequent
authenticate_user with the same password succeeds, returning the new
account's (id, username, email) row — both operations apply the same
deterministic password hash function. -/
theorem C10_register_then_authenticate (hash_password : String → String)
    (st : AuthState) (username password : String) (email : Option String)
    (h : ∀ a ∈ st.users, a.username ≠ username) :
    (register_user hash_password st username password email).2.1 = true ∧
    authenticate_user hash_password
      (register_user hash_password st username password email).1
      username password = .ok (st.nextId, username, email) := by
  have hf : st.users.find? (fun a => a.username == username) = none := by
    apply List.find?_eq_none.mpr
    intro a ha
    simp [beq_iff_eq, h a ha]
  unfold register_user
  simp only [hf]
  refine ⟨by trivial, ?_⟩
  unfold authenticate_user
  have h1 : st.users.find? (fun a => a.username == username &&
      a.password_hash == hash_password password) = none := by
    apply List.find?_eq_none.mpr
    intro a ha
    simp [beq_iff_eq, h a ha]
  simp only [List.find?_append, h1, Option.none_or]
  simp [List.find?]

theorem C10_witness :
    (register_user (fun s => s) ⟨[], 0⟩ "alice" "pw" (some "a@b.c")).2.1 = true ∧
    authenticate_user (fun s => s)
      (register_user (fun s => s) ⟨[], 0⟩ "alice" "pw" (some "a@b.c")).1
      "alice" "pw" = .ok (0, "alice", some "a@b.c") :=
  C10_register_then_authenticate (fun s => s) ⟨[], 0⟩ "alice" "pw"
    (some "a@b.c") (by simp)

theorem mem_buildBreakdown (inv : ℚ) (l : Alloc) (c : String)
    (e : BreakdownEntry) :
    (c, e) ∈ buildBreakdown inv l ↔
      ∃ p, (c, p) ∈ l ∧ p > 0 ∧
        e = { percentage := p * 100, amount := inv * p,
              description := getCategoryDescription c } := by
  induction l with
  | nil => simp [buildBreakdown]
  | cons kv rest ih =>
    obtain ⟨k, p⟩ := kv
    by_cases hp : p > 0
    · rw [buildBreakdown, if_pos hp]
      simp only [List.mem_cons, Prod.mk.injEq, ih]
      constructor
      · rintro (⟨hc, he⟩ | ⟨q, hq, hq0, he⟩)
        · exact ⟨p, Or.inl ⟨hc, rfl⟩, hp, by subst hc; exact he⟩
        · exact ⟨q, Or.inr hq, hq0, he⟩
      · rintro ⟨q, (⟨hc, hpq⟩ | hq), hq0, he⟩
        · subst hc; subst hpq; exact Or.inl ⟨rfl, he⟩
        · exact Or.inr ⟨q, hq, hq0, he⟩
    · rw [buildBreakdown, if_neg hp]
      simp only [List.mem_cons, Prod.mk.injEq, ih]
      constructor
      · rintro ⟨q, hq, hq0, he⟩
        exact ⟨q, Or.inr hq, hq0, he⟩
      · rintro ⟨q, (⟨hc, hpq⟩ | hq), hq0, he⟩
        · exact absurd (hpq ▸ hq0) hp
        · exact ⟨q, hq, hq0, he⟩

/-- C8: in generate_advice_report the investable amount is savings times 0.8,
and investment_breakdown holds an entry exactly for each allocation category
with positive percentage, that entry's amount being the investable amount
times the percentage; zero-percentage categories are excluded. -/
theorem C8_breakdown_exactly_positive_categories (user_data : UserProfile)
    (analysis_result : AnalysisResult) (allocation : Alloc)
    (market_data : List (String × Quote)) (category : String)
    (entry : BreakdownEntry) :
    investableAmount user_data.savings = user_data.savings * (8/10) ∧
    ((category, entry) ∈ (generate_advice_report user_data analysis_result
        allocation market_data).investment_breakdown ↔
      ∃ percentage, (category, percentage) ∈ allocation ∧ percentage > 0 ∧
        entry = { percentage := percentage * 100,
                  amount := investableAmount user_data.savings * percentage,
                  description := getCategoryDescription category }) := by
  refine ⟨rfl, ?_⟩
  show (category, entry) ∈
      buildBreakdown (investableAmount user_data.savings) allocation ↔ _
  exact mem_buildBreakdown _ _ _ _

end MajorProject
